import Mathlib

/-!
Verification of the furnish-planner floorplan editor against its
natural-language specification.

The development shallowly embeds the canvas interaction engine of
`src/src/components/FloorplanCanvas.tsx` (second, complete variant of the
component), the furniture-drop parsing, the AI fallback of
`src/src/utils/FloorplanAI.ts`, and the upload validator of
`src/src/utils/fileValidator.ts`.

JavaScript numbers are modelled as exact rationals (`ℚ`); the arithmetic the
claims exercise (addition, subtraction, halving, `Math.abs`, `Math.round`,
`Math.max`) is exact on the inputs involved.  Scene objects are modelled as
lists ordered back-to-front, mirroring the drawing surface's draw-order index,
with a numeric `oid` standing for JavaScript reference identity (the system
only ever compares objects by reference, and every object is allocated fresh).
-/

namespace Geometry

/-- Source: `snapToGrid` in FloorplanCanvas.tsx uses `Math.round`, which for
JavaScript numbers is floor of the argument plus one half (halves round up). -/
def jsRound (q : ℚ) : ℤ := ⌊q + 1/2⌋

/-- Source: `const snapToGrid = (coordinate, gridSize = 20) =>
Math.round(coordinate / gridSize) * gridSize`. -/
def snapToGrid (coordinate : ℚ) (gridSize : ℚ) : ℚ :=
  (jsRound (coordinate / gridSize) : ℚ) * gridSize

/-- Rectangle state of the transient room being drawn (left, top, width,
height), as held by the working `Rect` object. -/
structure WorkingRect where
  left : ℚ
  top : ℚ
  width : ℚ
  height : ℚ
deriving DecidableEq

/-- Source: the room branch of the `mouse:move` handler.  With `startPoint`
`(startX, startY)` and the current snapped pointer `(snappedX, snappedY)` it
sets `width = Math.abs(width)`, `height = Math.abs(height)`,
`left = width < 0 ? snappedX : startX`, `top = height < 0 ? snappedY : startY`,
where `width = snappedX - startX` and `height = snappedY - startY`. -/
def roomMoveRect (startX startY snappedX snappedY : ℚ) : WorkingRect :=
  let width := snappedX - startX
  let height := snappedY - startY
  { width := |width|,
    height := |height|,
    left := if width < 0 then snappedX else startX,
    top := if height < 0 then snappedY else startY }

/-- Source: the room finalization in the `mouse:up` handler computes
`rectWidth = Math.max(1, room.width)` and `rectHeight = Math.max(1, room.height)`
and builds the final rect from them; left and top are taken unchanged. -/
def finalizeRoomRect (r : WorkingRect) : WorkingRect :=
  { left := r.left, top := r.top, width := max 1 r.width, height := max 1 r.height }

/-- A wall is a fabric `Line` with two endpoints. -/
structure WallSeg where
  x1 : ℚ
  y1 : ℚ
  x2 : ℚ
  y2 : ℚ
deriving DecidableEq

/-- Objects the wall/room drawing gestures can put on the canvas. -/
inductive DrawObj where
  | wallObj (w : WallSeg)
  | roomObj (r : WorkingRect)
deriving DecidableEq

/-- Source: `new Line([snappedX, snappedY, snappedX, snappedY], ...)` — the
wall created on mouse down is a zero-length line at the snapped point. -/
def mkWallAt (x y : ℚ) : WallSeg := ⟨x, y, x, y⟩

/-- Active drawing tools relevant to the press-release gesture model. -/
inductive Tool where
  | select | wall | room | dimension
deriving DecidableEq

/-- State the consolidated mouse handlers manipulate: the canvas object list,
the React `startPoint` and `isDrawing` states, and the `currentWall` reference
(modelled as an index into the canvas list). -/
structure GestureState where
  canvas : List DrawObj
  startPoint : Option (ℚ × ℚ)
  isDrawing : Bool
  currentWall : Option Nat
deriving DecidableEq

/-- Source: the consolidated `mouse:down` handler (empty-canvas case).  The
wall branch snaps the pointer, marks drawing, and adds a zero-length line which
becomes `currentWall`; the room branch only records the snapped start point
("Don't create room yet, wait for drag"). -/
def mouseDown (tool : Tool) (px py : ℚ) (s : GestureState) : GestureState :=
  match tool with
  | .wall =>
    let sx := snapToGrid px 20
    let sy := snapToGrid py 20
    { s with isDrawing := true,
             startPoint := some (sx, sy),
             canvas := s.canvas ++ [.wallObj (mkWallAt sx sy)],
             currentWall := some s.canvas.length }
  | .room =>
    let sx := snapToGrid px 20
    let sy := snapToGrid py 20
    { s with startPoint := some (sx, sy) }
  | _ => s

/-- Source: the consolidated `mouse:up` handler in the no-drag case (no
`mouse:move` fired, so `isDragging` is false).  The handler only signals a
switch back to the select tool; the wall branch clears the `currentWall`
reference without removing the line from the canvas, and the room finalization
branch does not run for the room tool because `isDrawing` was never set.
Finally `isDrawing` and `startPoint` are reset. -/
def mouseUpNoDrag (tool : Tool) (s : GestureState) : GestureState :=
  let s1 := if tool == Tool.wall && s.isDrawing then { s with currentWall := none } else s
  { s1 with isDrawing := false, startPoint := none }

/-- A press-release pointer gesture with zero drag distance: `mouse:down`
followed directly by `mouse:up`. -/
def pressRelease (tool : Tool) (px py : ℚ) (s : GestureState) : GestureState :=
  mouseUpNoDrag tool (mouseDown tool px py s)

/-- Decides whether a canvas object is a zero-length wall. -/
def isZeroWall (o : DrawObj) : Bool :=
  match o with
  | .wallObj w => w.x1 == w.x2 && w.y1 == w.y2
  | _ => false

/-- Decides whether a canvas object is a zero-size room. -/
def isZeroRoom (o : DrawObj) : Bool :=
  match o with
  | .roomObj r => r.width == 0 || r.height == 0
  | _ => false

end Geometry

namespace Geometry

/-- C4: during a room-draw gesture, every move event normalizes the working
rectangle: width and height are the absolute per-axis differences between the
snapped pointer and the start point, and left/top are the per-axis minima, for
every drag direction. -/
theorem room_drag_rect_normalized (startX startY snappedX snappedY : ℚ) :
    (roomMoveRect startX startY snappedX snappedY).width = |snappedX - startX| ∧
    (roomMoveRect startX startY snappedX snappedY).height = |snappedY - startY| ∧
    (roomMoveRect startX startY snappedX snappedY).left = min startX snappedX ∧
    (roomMoveRect startX startY snappedX snappedY).top = min startY snappedY := by
  refine ⟨rfl, rfl, ?_, ?_⟩
  · show (if snappedX - startX < 0 then snappedX else startX) = min startX snappedX
    by_cases h : snappedX - startX < 0
    · rw [if_pos h, min_eq_right (by linarith)]
    · rw [if_neg h, min_eq_left (by linarith)]
  · show (if snappedY - startY < 0 then snappedY else startY) = min startY snappedY
    by_cases h : snappedY - startY < 0
    · rw [if_pos h, min_eq_right (by linarith)]
    · rw [if_neg h, min_eq_left (by linarith)]

/-- C5: every finalized room rectangle has strictly positive width and height
(the finalization clamps both through `Math.max(1, _)`), while the transient
rectangle during drawing may have width or height zero (witnessed by a drag
that has not left the start point). -/
theorem finalized_room_positive :
    (∀ r : WorkingRect,
        0 < (finalizeRoomRect r).width ∧ 0 < (finalizeRoomRect r).height) ∧
    (roomMoveRect 0 0 0 0).width = 0 := by
  refine ⟨fun r => ⟨?_, ?_⟩, ?_⟩
  · exact lt_max_iff.mpr (Or.inl zero_lt_one)
  · exact lt_max_iff.mpr (Or.inl zero_lt_one)
  · simp [roomMoveRect]

/-- C6 counterexample: a press-release of the wall tool with zero drag distance
persists a zero-length wall on the canvas — the claim that no degenerate object
remains after such a gesture is false. -/
theorem zero_drag_persists_degenerate_wall :
    (pressRelease Tool.wall 0 0 ⟨[], none, false, none⟩).canvas.any isZeroWall = true := by
  simp [pressRelease, mouseDown, mouseUpNoDrag, isZeroWall, mkWallAt]

/-- C6 amended: a zero-drag press-release persists no room object at all (room
creation is deferred until the first drag move), but with the wall tool it
persists exactly one new wall, and that wall has zero length. -/
theorem zero_drag_room_safe_wall_degenerate (px py : ℚ) (s : GestureState) :
    (pressRelease Tool.room px py s).canvas = s.canvas ∧
    (pressRelease Tool.wall px py s).canvas =
      s.canvas ++ [.wallObj (mkWallAt (snapToGrid px 20) (snapToGrid py 20))] ∧
    isZeroWall (.wallObj (mkWallAt (snapToGrid px 20) (snapToGrid py 20))) = true := by
  refine ⟨rfl, ?_, ?_⟩
  · simp [pressRelease, mouseDown, mouseUpNoDrag]
  · simp [isZeroWall, mkWallAt]

/-- C7: `snapToGrid` returns a multiple of the grid spacing, and among all
multiples it is one nearest to the input coordinate (round-to-nearest; at an
exact tie both neighbours are nearest and the larger is chosen). -/
theorem snap_rounds_to_nearest_multiple (c g : ℚ) (hg : 0 < g) :
    (∃ k : ℤ, snapToGrid c g = (k : ℚ) * g) ∧
    (∀ k : ℤ, |c - snapToGrid c g| ≤ |c - (k : ℚ) * g|) := by
  refine ⟨⟨jsRound (c / g), rfl⟩, ?_⟩
  intro k
  have hg' : g ≠ 0 := ne_of_gt hg
  have h1 : ((jsRound (c / g) : ℤ) : ℚ) ≤ c / g + 1/2 := Int.floor_le _
  have h2 : c / g + 1/2 < ((jsRound (c / g) : ℤ) : ℚ) + 1 := Int.lt_floor_add_one _
  have habs : |c / g - ((jsRound (c / g) : ℤ) : ℚ)| ≤ 1/2 := by
    rw [abs_le]; constructor <;> linarith
  have hsnap : c - snapToGrid c g = (c / g - ((jsRound (c / g) : ℤ) : ℚ)) * g := by
    unfold snapToGrid
    rw [sub_mul, div_mul_cancel₀ _ hg']
  have hk : c - (k : ℚ) * g = (c / g - (k : ℚ)) * g := by
    rw [sub_mul, div_mul_cancel₀ _ hg']
  rw [hsnap, hk, abs_mul, abs_mul, abs_of_pos hg]
  apply mul_le_mul_of_nonneg_right _ (le_of_lt hg)
  by_cases hkm : k = jsRound (c / g)
  · subst hkm; exact le_refl _
  · have hne : (jsRound (c / g)) - k ≠ 0 := sub_ne_zero.mpr (fun h => hkm h.symm)
    have hge1 : (1 : ℤ) ≤ |jsRound (c / g) - k| := Int.one_le_abs hne
    have hge1' : (1 : ℚ) ≤ |((jsRound (c / g) : ℤ) : ℚ) - (k : ℚ)| := by
      exact_mod_cast hge1
    have htri : |((jsRound (c / g) : ℤ) : ℚ) - (k : ℚ)| ≤
        |((jsRound (c / g) : ℤ) : ℚ) - c / g| + |c / g - (k : ℚ)| := abs_sub_le _ _ _
    have hcomm : |((jsRound (c / g) : ℤ) : ℚ) - c / g| =
        |c / g - ((jsRound (c / g) : ℤ) : ℚ)| := abs_sub_comm _ _
    linarith

/-- Witness for C7 at a concrete coordinate and the source's 20-pixel grid. -/
theorem snap_rounds_to_nearest_multiple_witness :
    (0 : ℚ) < 20 ∧
    ((∃ k : ℤ, snapToGrid 30 20 = (k : ℚ) * 20) ∧
     (∀ k : ℤ, |(30 : ℚ) - snapToGrid 30 20| ≤ |(30 : ℚ) - (k : ℚ) * 20|)) :=
  ⟨by norm_num, snap_rounds_to_nearest_multiple 30 20 (by norm_num)⟩

end Geometry

namespace Furniture

/-- Numeric value of a digit string, as `parseInt` computes it on an
all-digit input. -/
def digitsVal (cs : List Char) : Nat :=
  cs.foldl (fun acc c => 10 * acc + (c.toNat - '0'.toNat)) 0

/-- Maximal leading digit run of a character list. -/
def takeDigits (cs : List Char) : List Char := cs.takeWhile (fun c => c.isDigit)

/-- Remainder after the maximal leading digit run. -/
def dropDigits (cs : List Char) : List Char := cs.dropWhile (fun c => c.isDigit)

/-- Second capture of the dimension regex: after the matched `x`, the lazy
`.*?` stops at the first digit and the greedy `(\d+)` takes the maximal digit
run from there. -/
def findSecondNum : List Char → Option Nat
  | [] => none
  | c :: rest =>
    if c.isDigit then some (digitsVal (takeDigits (c :: rest)))
    else findSecondNum rest

/-- Middle part of the dimension regex: the lazy `.*?` stops at the first
literal `x` after which a digit can still be found; if the digit search after
one `x` fails, backtracking grows `.*?` to the next `x`. -/
def findAfterX : List Char → Option Nat
  | [] => none
  | c :: rest =>
    if c == 'x' then
      match findSecondNum rest with
      | some n => some n
      | none => findAfterX rest
    else findAfterX rest

/-- Source: `furniture.dimensions.match(/(\d+).*?x.*?(\d+)/)`.  The match
starts at the leftmost digit from which the whole pattern can succeed; the
greedy first `(\d+)` always captures the maximal digit run there (the later
`x` cannot lie inside a digit run, so shortening the run never helps), and the
second capture is resolved by `findAfterX` past that run. -/
def findDimMatch : List Char → Option (Nat × Nat)
  | c :: rest =>
    if c.isDigit then
      match findAfterX (dropDigits (c :: rest)) with
      | some n2 => some (digitsVal (takeDigits (c :: rest)), n2)
      | none => findDimMatch rest
    else findDimMatch rest
  | [] => none

/-- Source: `const width = dimensions ? parseInt(dimensions[1]) : 60` and
`const height = dimensions ? parseInt(dimensions[2]) : 40`. -/
def parseDimensions (dimensions : String) : Nat × Nat :=
  match findDimMatch dimensions.data with
  | some (w, h) => (w, h)
  | none => (60, 40)

/-- Catalog entry fields consumed by `createFurnitureObjectOnCanvas`. -/
structure FurnitureItem where
  name : String
  dimensions : String
deriving DecidableEq

/-- The placeholder rectangle-plus-label the drop handler builds (pre-scale
size and label text). -/
structure FurniturePlaceholder where
  width : Nat
  height : Nat
  labelText : String
deriving DecidableEq

/-- Source: `createFurnitureObjectOnCanvas` sizes the placeholder `Rect` from
the parsed dimension string and labels it with `new IText(furniture.name, ...)`. -/
def createFurniturePlaceholder (furniture : FurnitureItem) : FurniturePlaceholder :=
  let d := parseDimensions furniture.dimensions
  { width := d.1, height := d.2, labelText := furniture.name }

/-- C8: furniture placement parses the catalog dimension string of the shape
number-x-number to size the placeholder, falls back to the fixed 60 by 40
default when the pattern does not match, and labels the placeholder with the
item name; the catalog string with inch marks, 84 by 36, parses to 84 and 36. -/
theorem furniture_placeholder_sizing :
    (∀ furniture : FurnitureItem,
        (createFurniturePlaceholder furniture).labelText = furniture.name) ∧
    (∀ furniture : FurnitureItem,
        findDimMatch furniture.dimensions.data = none →
        (createFurniturePlaceholder furniture).width = 60 ∧
        (createFurniturePlaceholder furniture).height = 40) ∧
    (∀ name : String,
        createFurniturePlaceholder ⟨name, "84\" x 36\""⟩ =
          ⟨84, 36, name⟩) := by
  refine ⟨fun f => rfl, fun f h => ?_, fun name => ?_⟩
  · constructor <;> simp [createFurniturePlaceholder, parseDimensions, h]
  · show createFurniturePlaceholder ⟨name, "84\" x 36\""⟩ = ⟨84, 36, name⟩
    have h : parseDimensions "84\" x 36\"" = (84, 36) := by decide
    simp [createFurniturePlaceholder, h]

/-- Witness for the fallback branch of C8 at a concrete unparsable catalog
entry. -/
theorem furniture_placeholder_sizing_witness :
    findDimMatch ("round rug" : String).data = none ∧
    (createFurniturePlaceholder ⟨"Rug", "round rug"⟩).width = 60 ∧
    (createFurniturePlaceholder ⟨"Rug", "round rug"⟩).height = 40 :=
  ⟨by decide, furniture_placeholder_sizing.2.1 ⟨"Rug", "round rug"⟩ (by decide)⟩

end Furniture

namespace FloorplanAI

/-- Element types of the analysis result. -/
inductive ElementType where
  | room | wallElem | door | windowElem
deriving DecidableEq

/-- Source: the `FloorplanElement` interface of FloorplanAI.ts (coordinates
flattened). -/
structure FloorplanElement where
  etype : ElementType
  x : ℚ
  y : ℚ
  width : ℚ
  height : ℚ
  label : String
  confidence : ℚ

/-- Source: `createSyntheticRooms` builds three room elements from the image
dimensions (note the source computes the third height from the image width). -/
def createSyntheticRooms (width height : ℚ) : List FloorplanElement :=
  [ { etype := .room, x := width * 0.1, y := height * 0.1,
      width := width * 0.35, height := height * 0.4,
      label := "Living Room", confidence := 0.8 },
    { etype := .room, x := width * 0.55, y := height * 0.1,
      width := width * 0.35, height := height * 0.4,
      label := "Kitchen", confidence := 0.8 },
    { etype := .room, x := width * 0.1, y := height * 0.6,
      width := width * 0.8, height := width * 0.3,
      label := "Bedroom", confidence := 0.8 } ]

/-- Shape of the analysis data consumed by the upload flow. -/
structure AnalysisData where
  elements : List FloorplanElement
  dimsWidth : ℚ
  dimsHeight : ℚ
  scale : ℚ

/-- Source: both failure paths — `initializeModels` returning false in
`analyzeFloorplan` and the catch block of `performAnalysis` — substitute the
same synthetic result with the natural image dimensions and scale 20. -/
def fallbackAnalysis (width height : ℚ) : AnalysisData :=
  { elements := createSyntheticRooms width height,
    dimsWidth := width, dimsHeight := height, scale := 20 }

/-- C9: on any AI pipeline failure the analysis result contains exactly three
synthetic room elements labelled Living Room, Kitchen and Bedroom, each with x
position a fixed fraction of the image width and y position a fixed fraction
of the image height. -/
theorem fallback_three_synthetic_rooms (width height : ℚ) :
    (fallbackAnalysis width height).elements.length = 3 ∧
    (fallbackAnalysis width height).elements.map (fun e => e.label) =
      ["Living Room", "Kitchen", "Bedroom"] ∧
    (fallbackAnalysis width height).elements.all
      (fun e => e.etype == ElementType.room) = true ∧
    (fallbackAnalysis width height).elements.map (fun e => e.x) =
      [width * 0.1, width * 0.55, width * 0.1] ∧
    (fallbackAnalysis width height).elements.map (fun e => e.y) =
      [height * 0.1, height * 0.1, height * 0.6] := by
  exact ⟨rfl, rfl, rfl, rfl, rfl⟩

end FloorplanAI

namespace DimLabels

/-- Semantic tag of a canvas object in the label-manager model: a room group
carries its `room_`-prefixed identifier, a dimension label carries the
`roomId` and `dimensionType` custom properties (`isWidth = true` for the width
label), and everything else (walls, grid lines, furniture) is `other`. -/
inductive LKind where
  | roomShape (rid : String)
  | dimLabel (rid : String) (isWidth : Bool)
  | other
deriving DecidableEq

/-- Canvas object of the label-manager model.  `oid` stands for reference
identity; `left`, `top` and `text` are the mutable fabric properties the
upsert updates in place (the displayed text is modelled by the numeric feet
value it renders). -/
structure LObj where
  oid : Nat
  kind : LKind
  left : ℚ
  top : ℚ
  text : ℚ
deriving DecidableEq

/-- State of the canvas plus the label manager: the draw list, the
`roomLabelsRef.current` record (an association list `roomId` to the pair of
registered label identities), and the allocator for fresh object identities. -/
structure LState where
  canvas : List LObj
  index : List (String × Nat × Nat)
  nextId : Nat
deriving DecidableEq

/-- Source: `existing.width.set(/height.set` update position and text of a
label object in place. -/
def setLabel (l t w : ℚ) (o : LObj) : LObj := { o with left := l, top := t, text := w }

/-- Decides whether an object is a dimension label for the given room. -/
def isDimLabelFor (rid : String) (o : LObj) : Bool :=
  match o.kind with
  | .dimLabel r _ => r == rid
  | _ => false

/-- In-place mutation performed by the update branch of the upsert: the object
registered as the width label receives the width position and text, the one
registered as the height label the height position and text, and every other
object is untouched (fabric mutation of a shared reference, expressed as a map
over the draw list). -/
def upsertTouch (wId hId : Nat) (left top width height wFeet hFeet : ℚ) (o : LObj) : LObj :=
  if o.oid == wId then setLabel (left + width / 2) (top + height + 15) wFeet o
  else if o.oid == hId then setLabel (left + width + 15) (top + height / 2) hFeet o
  else o

/-- Source: `createRoomDimensionLabels(roomId, left, top, width, height,
widthFeet, heightFeet)`.  If `roomLabelsRef.current[roomId]` exists, the two
registered label objects are mutated in place (position and text); otherwise
two fresh labels are created, registered under the identifier, and added to
the canvas. -/
def createRoomDimensionLabels (roomId : String) (left top width height wFeet hFeet : ℚ)
    (s : LState) : LState :=
  match s.index.lookup roomId with
  | some (wId, hId) =>
    { s with canvas := s.canvas.map (upsertTouch wId hId left top width height wFeet hFeet) }
  | none =>
    let wL : LObj := ⟨s.nextId, .dimLabel roomId true,
      left + width / 2, top + height + 15, wFeet⟩
    let hL : LObj := ⟨s.nextId + 1, .dimLabel roomId false,
      left + width + 15, top + height / 2, hFeet⟩
    { canvas := s.canvas ++ [wL, hL],
      index := (roomId, s.nextId, s.nextId + 1) :: s.index,
      nextId := s.nextId + 2 }

/-- Source: `removeRoomDimensionLabels(roomId)`.  If the manager's index holds
a pair for the identifier, exactly those two objects are removed from the
canvas and the record entry is deleted, and the function returns; otherwise a
scene-wide scan removes every object tagged as a dimension label with that
`roomId`. -/
def removeRoomDimensionLabels (roomId : String) (s : LState) : LState :=
  match s.index.lookup roomId with
  | some (wId, hId) =>
    { s with canvas := (s.canvas.eraseP (fun o => o.oid == wId)).eraseP (fun o => o.oid == hId),
             index := s.index.filter (fun e => !(e.1 == roomId)) }
  | none =>
    { s with canvas := s.canvas.filter (fun o => !(isDimLabelFor roomId o)) }

/-- Source: `handleDeleteObject`.  When the selected object's identifier
starts with `room_` (exactly the room groups), its dimension labels are
removed first; then the object itself is removed from the canvas. -/
def handleDeleteObject (target : LObj) (s : LState) : LState :=
  let s1 := match target.kind with
    | .roomShape rid => removeRoomDimensionLabels rid s
    | _ => s
  { s1 with canvas := s1.canvas.eraseP (fun o => o.oid == target.oid) }

/-- Freshness of the identity allocator over the canvas: every object on the
canvas was allocated before `nextId`. -/
def wfIds (s : LState) : Bool := s.canvas.all (fun o => o.oid < s.nextId)

/-- Accuracy of the manager's index for one room: if the index registers a
pair for the identifier, every dimension label for that room on the canvas is
one of the two registered objects (the reachable-state invariant the upsert
discipline maintains); a missing entry constrains nothing (the stale-index
case served by the fallback scan). -/
def indexAccurate (rid : String) (s : LState) : Bool :=
  match s.index.lookup rid with
  | some (wId, hId) =>
    s.canvas.all (fun o => !(isDimLabelFor rid o) || o.oid == wId || o.oid == hId)
  | none => true

end DimLabels


namespace DimLabels

/-- Unfolding equation of the upsert when the identifier is registered. -/
theorem upsert_eq_of_lookup_some (roomId : String) (left top width height wFeet hFeet : ℚ)
    (s : LState) (wId hId : Nat) (hl : s.index.lookup roomId = some (wId, hId)) :
    createRoomDimensionLabels roomId left top width height wFeet hFeet s =
      { s with canvas := s.canvas.map (upsertTouch wId hId left top width height wFeet hFeet) } := by
  unfold createRoomDimensionLabels
  rw [hl]

/-- Unfolding equation of the upsert when the identifier is not registered. -/
theorem upsert_eq_of_lookup_none (roomId : String) (left top width height wFeet hFeet : ℚ)
    (s : LState) (hl : s.index.lookup roomId = none) :
    createRoomDimensionLabels roomId left top width height wFeet hFeet s =
      { canvas := s.canvas ++
          [⟨s.nextId, .dimLabel roomId true, left + width / 2, top + height + 15, wFeet⟩,
           ⟨s.nextId + 1, .dimLabel roomId false, left + width + 15, top + height / 2, hFeet⟩],
        index := (roomId, s.nextId, s.nextId + 1) :: s.index,
        nextId := s.nextId + 2 } := by
  unfold createRoomDimensionLabels
  rw [hl]

/-- Helper: mutating the two registered labels in place is a pointwise
idempotent operation — a second application with identical arguments rewrites
the same fields with the same values. -/
theorem upsertTouch_idem (wId hId : Nat) (left top width height wFeet hFeet : ℚ)
    (o : LObj) :
    upsertTouch wId hId left top width height wFeet hFeet
      (upsertTouch wId hId left top width height wFeet hFeet o) =
    upsertTouch wId hId left top width height wFeet hFeet o := by
  unfold upsertTouch
  by_cases h1 : (o.oid == wId) = true
  · simp [h1, setLabel]
  · by_cases h2 : (o.oid == hId) = true
    · simp [h1, h2, setLabel]
    · simp [h1, h2]

/-- C2: the dimension-label upsert is idempotent.  From any state whose
identities respect the allocator, calling `createRoomDimensionLabels` twice in
a row with identical bounds yields exactly the state of the first call: the
same two registered label objects are updated in place (no new objects are
allocated, the pair keeps its identity), so the second call leaves the number
of dimension labels for the identifier unchanged — two, not four. -/
theorem upsert_idempotent (roomId : String) (left top width height wFeet hFeet : ℚ)
    (s : LState) (hwf : wfIds s = true) :
    createRoomDimensionLabels roomId left top width height wFeet hFeet
        (createRoomDimensionLabels roomId left top width height wFeet hFeet s) =
      createRoomDimensionLabels roomId left top width height wFeet hFeet s ∧
    ((createRoomDimensionLabels roomId left top width height wFeet hFeet
        (createRoomDimensionLabels roomId left top width height wFeet hFeet s)).canvas.filter
          (isDimLabelFor roomId)).length =
      ((createRoomDimensionLabels roomId left top width height wFeet hFeet s).canvas.filter
          (isDimLabelFor roomId)).length := by
  have key : createRoomDimensionLabels roomId left top width height wFeet hFeet
      (createRoomDimensionLabels roomId left top width height wFeet hFeet s) =
      createRoomDimensionLabels roomId left top width height wFeet hFeet s := by
    cases hl : s.index.lookup roomId with
    | some p =>
      obtain ⟨wId, hId⟩ := p
      have e1 := upsert_eq_of_lookup_some roomId left top width height wFeet hFeet s wId hId hl
      rw [e1]
      rw [upsert_eq_of_lookup_some roomId left top width height wFeet hFeet
        (LState.mk (s.canvas.map (upsertTouch wId hId left top width height wFeet hFeet))
          s.index s.nextId) wId hId hl]
      dsimp only
      congr 1
      rw [List.map_map]
      exact List.map_congr_left (fun a _ => upsertTouch_idem wId hId _ _ _ _ _ _ a)
    | none =>
      have e1 := upsert_eq_of_lookup_none roomId left top width height wFeet hFeet s hl
      rw [e1]
      have hl2 : (((roomId, s.nextId, s.nextId + 1) :: s.index).lookup roomId)
          = some (s.nextId, s.nextId + 1) := by
        simp [List.lookup]
      rw [upsert_eq_of_lookup_some roomId left top width height wFeet hFeet
        (LState.mk (s.canvas ++
            [LObj.mk s.nextId (LKind.dimLabel roomId true)
              (left + width / 2) (top + height + 15) wFeet,
             LObj.mk (s.nextId + 1) (LKind.dimLabel roomId false)
              (left + width + 15) (top + height / 2) hFeet])
          ((roomId, s.nextId, s.nextId + 1) :: s.index) (s.nextId + 2))
        s.nextId (s.nextId + 1) hl2]
      dsimp only
      congr 1
      rw [List.map_append]
      have hold : ∀ o ∈ s.canvas,
          upsertTouch s.nextId (s.nextId + 1) left top width height wFeet hFeet o = o := by
        intro o ho
        have hlt : o.oid < s.nextId := of_decide_eq_true ((List.all_eq_true.mp hwf) o ho)
        have hne1 : (o.oid == s.nextId) = false :=
          beq_eq_false_iff_ne.mpr (Nat.ne_of_lt hlt)
        have hne2 : (o.oid == s.nextId + 1) = false :=
          beq_eq_false_iff_ne.mpr (Nat.ne_of_lt (Nat.lt_succ_of_lt hlt))
        simp [upsertTouch, hne1, hne2]
      have hmap : s.canvas.map (upsertTouch s.nextId (s.nextId + 1) left top width height wFeet hFeet)
          = s.canvas := by
        calc s.canvas.map (upsertTouch s.nextId (s.nextId + 1) left top width height wFeet hFeet)
            = s.canvas.map id := List.map_congr_left (fun a ha => hold a ha)
          _ = s.canvas := List.map_id s.canvas
      rw [hmap]
      congr 1
      have hne : (s.nextId + 1 == s.nextId) = false :=
        beq_eq_false_iff_ne.mpr (Nat.succ_ne_self s.nextId)
      simp [upsertTouch, setLabel, hne]
  exact ⟨key, by rw [key]⟩

/-- Witness for C2 at a concrete empty state and concrete bounds. -/
theorem upsert_idempotent_witness :
    wfIds ⟨[], [], 0⟩ = true ∧
    createRoomDimensionLabels "room_1" 100 100 60 40 3 2
        (createRoomDimensionLabels "room_1" 100 100 60 40 3 2 ⟨[], [], 0⟩) =
      createRoomDimensionLabels "room_1" 100 100 60 40 3 2 ⟨[], [], 0⟩ :=
  ⟨by decide, (upsert_idempotent "room_1" 100 100 60 40 3 2 ⟨[], [], 0⟩ (by decide)).1⟩

end DimLabels

namespace DimLabels

/-- Unfolding equation of the label removal when the index holds a pair. -/
theorem removeLabels_eq_of_lookup_some (rid : String) (s : LState) (wId hId : Nat)
    (hl : s.index.lookup rid = some (wId, hId)) :
    removeRoomDimensionLabels rid s =
      { s with canvas := (s.canvas.eraseP (fun o => o.oid == wId)).eraseP (fun o => o.oid == hId),
               index := s.index.filter (fun e => !(e.1 == rid)) } := by
  unfold removeRoomDimensionLabels
  rw [hl]

/-- Unfolding equation of the label removal on the fallback scan path. -/
theorem removeLabels_eq_of_lookup_none (rid : String) (s : LState)
    (hl : s.index.lookup rid = none) :
    removeRoomDimensionLabels rid s =
      { s with canvas := s.canvas.filter (fun o => !(isDimLabelFor rid o)) } := by
  unfold removeRoomDimensionLabels
  rw [hl]

/-- Helper: erasing the first object bearing an identity from a canvas of
pairwise-distinct identities leaves no object with that identity. -/
theorem eraseP_oid_not_mem (w : Nat) :
    ∀ l : List LObj, (l.map (fun o => o.oid)).Nodup →
      ∀ o ∈ l.eraseP (fun x => x.oid == w), o.oid ≠ w := by
  intro l
  induction l with
  | nil =>
    intro _ o ho
    rw [List.eraseP_nil] at ho
    exact absurd ho (List.not_mem_nil o)
  | cons a t ih =>
    intro hnd o ho
    have hnd' : (a.oid :: t.map (fun o => o.oid)).Nodup := by simpa using hnd
    by_cases h : (a.oid == w) = true
    · have herase : List.eraseP (fun x => x.oid == w) (a :: t) = t :=
        List.eraseP_cons_of_pos h
      rw [herase] at ho
      have haw : a.oid = w := eq_of_beq h
      have hnmem : a.oid ∉ t.map (fun o => o.oid) := (List.nodup_cons.mp hnd').1
      intro hc
      exact hnmem (by rw [haw, ← hc]; exact List.mem_map_of_mem _ ho)
    · have herase : List.eraseP (fun x => x.oid == w) (a :: t) =
          a :: List.eraseP (fun x => x.oid == w) t :=
        List.eraseP_cons_of_neg (by simp [h])
      rw [herase] at ho
      rcases List.mem_cons.mp ho with rfl | hmem
      · exact fun hc => h (beq_iff_eq.mpr hc)
      · exact ih (List.nodup_cons.mp hnd').2 o hmem

/-- Helper: after filtering every entry with the given key out of the manager
record, lookup of that key fails. -/
theorem lookup_filter_key_none (rid : String) :
    ∀ l : List (String × Nat × Nat),
      (l.filter (fun e => !(e.1 == rid))).lookup rid = none := by
  intro l
  induction l with
  | nil => rfl
  | cons e t ih =>
    by_cases h : (e.1 == rid) = true
    · simp [List.filter_cons, h, ih]
    · have h2 : (rid == e.1) = false := by
        rw [beq_eq_false_iff_ne]
        intro heq
        exact h (beq_iff_eq.mpr heq.symm)
      simp [List.filter_cons, h, List.lookup, h2, ih]

/-- Helper: label removal only ever deletes canvas objects. -/
theorem removeLabels_canvas_sublist (rid : String) (s : LState) :
    List.Sublist (removeRoomDimensionLabels rid s).canvas s.canvas := by
  cases hl : s.index.lookup rid with
  | some p =>
    obtain ⟨wId, hId⟩ := p
    rw [removeLabels_eq_of_lookup_some rid s wId hId hl]
    exact (List.eraseP_sublist _).trans (List.eraseP_sublist _)
  | none =>
    rw [removeLabels_eq_of_lookup_none rid s hl]
    exact List.filter_sublist _

/-- C3: deleting a room removes its shape and its dimension-label pair and
leaves no orphan labels.  From any state with distinct object identities whose
index is accurate for the room (the registered pair, when present, is exactly
the set of that room's labels on the canvas — the stale-index case being the
fallback-scan path), deleting the room group removes every dimension label of
that room, removes the room object itself, and clears the manager entry. -/
theorem delete_room_removes_shape_and_labels (target : LObj) (rid : String) (s : LState)
    (hnd : (s.canvas.map (fun o => o.oid)).Nodup)
    (hKind : target.kind = LKind.roomShape rid)
    (hAcc : indexAccurate rid s = true) :
    (∀ o ∈ (handleDeleteObject target s).canvas, isDimLabelFor rid o = false) ∧
    (∀ o ∈ (handleDeleteObject target s).canvas, o.oid ≠ target.oid) ∧
    (handleDeleteObject target s).index.lookup rid = none := by
  have hstep : handleDeleteObject target s =
      { removeRoomDimensionLabels rid s with
          canvas := (removeRoomDimensionLabels rid s).canvas.eraseP
            (fun o => o.oid == target.oid) } := by
    unfold handleDeleteObject
    rw [hKind]
  have hsub : List.Sublist (removeRoomDimensionLabels rid s).canvas s.canvas :=
    removeLabels_canvas_sublist rid s
  have hndr : ((removeRoomDimensionLabels rid s).canvas.map (fun o => o.oid)).Nodup :=
    hnd.sublist (hsub.map _)
  refine ⟨?_, ?_, ?_⟩
  · intro o ho
    rw [hstep] at ho
    have ho1 : o ∈ (removeRoomDimensionLabels rid s).canvas := List.mem_of_mem_eraseP ho
    cases hl : s.index.lookup rid with
    | some p =>
      obtain ⟨wId, hId⟩ := p
      rw [removeLabels_eq_of_lookup_some rid s wId hId hl] at ho1
      have hoh : o.oid ≠ hId := eraseP_oid_not_mem hId _ (hnd.sublist ((List.eraseP_sublist _).map _)) o ho1
      have ho2 : o ∈ s.canvas.eraseP (fun x => x.oid == wId) := List.mem_of_mem_eraseP ho1
      have how : o.oid ≠ wId := eraseP_oid_not_mem wId _ hnd o ho2
      have homem : o ∈ s.canvas := List.mem_of_mem_eraseP ho2
      unfold indexAccurate at hAcc
      rw [hl] at hAcc
      have := (List.all_eq_true.mp hAcc) o homem
      simp only [Bool.or_eq_true, beq_iff_eq] at this
      rcases this with (hlbl | hw) | hh
      · simpa using hlbl
      · exact absurd hw how
      · exact absurd hh hoh
    | none =>
      rw [removeLabels_eq_of_lookup_none rid s hl] at ho1
      have := List.of_mem_filter ho1
      simpa using this
  · intro o ho
    rw [hstep] at ho
    exact eraseP_oid_not_mem target.oid _ hndr o ho
  · rw [hstep]
    show (removeRoomDimensionLabels rid s).index.lookup rid = none
    cases hl : s.index.lookup rid with
    | some p =>
      obtain ⟨wId, hId⟩ := p
      rw [removeLabels_eq_of_lookup_some rid s wId hId hl]
      exact lookup_filter_key_none rid s.index
    | none =>
      rw [removeLabels_eq_of_lookup_none rid s hl]
      exact hl

/-- Witness for C3 at a concrete one-room state with its registered pair. -/
theorem delete_room_removes_shape_and_labels_witness :
    ((LState.mk
        [LObj.mk 0 (LKind.roomShape "room_1") 100 100 0,
         LObj.mk 1 (LKind.dimLabel "room_1" true) 130 155 3,
         LObj.mk 2 (LKind.dimLabel "room_1" false) 175 120 2]
        [("room_1", 1, 2)] 3).canvas.map (fun o => o.oid)).Nodup ∧
    (∀ o ∈ (handleDeleteObject (LObj.mk 0 (LKind.roomShape "room_1") 100 100 0)
        (LState.mk
          [LObj.mk 0 (LKind.roomShape "room_1") 100 100 0,
           LObj.mk 1 (LKind.dimLabel "room_1" true) 130 155 3,
           LObj.mk 2 (LKind.dimLabel "room_1" false) 175 120 2]
          [("room_1", 1, 2)] 3)).canvas, isDimLabelFor "room_1" o = false) :=
  ⟨by decide,
   (delete_room_removes_shape_and_labels
      (LObj.mk 0 (LKind.roomShape "room_1") 100 100 0) "room_1"
      (LState.mk
        [LObj.mk 0 (LKind.roomShape "room_1") 100 100 0,
         LObj.mk 1 (LKind.dimLabel "room_1" true) 130 155 3,
         LObj.mk 2 (LKind.dimLabel "room_1" false) 175 120 2]
        [("room_1", 1, 2)] 3)
      (by decide) (by decide) (by decide)).1⟩

end DimLabels

namespace FileValidator

/-- Uploaded file as the validator sees it: name, byte size, declared MIME
type, and raw content bytes. -/
structure JFile where
  name : String
  size : Nat
  mime : String
  content : List Nat
deriving DecidableEq

/-- Source: `FILE_SIGNATURES.jpeg`. -/
def sigJpeg : List Nat := [0xFF, 0xD8, 0xFF]

/-- Source: `FILE_SIGNATURES.png`. -/
def sigPng : List Nat := [0x89, 0x50, 0x4E, 0x47, 0x0D, 0x0A, 0x1A, 0x0A]

/-- Source: `FILE_SIGNATURES.pdf` (the ASCII bytes of the PDF marker). -/
def sigPdf : List Nat := [0x25, 0x50, 0x44, 0x46]

/-- Source: `FILE_SIGNATURES.jpegExif`. -/
def sigJpegExif : List Nat := [0xFF, 0xD8, 0xFF, 0xE1]

/-- Source: `FILE_SIGNATURES.jpegJfif`. -/
def sigJpegJfif : List Nat := [0xFF, 0xD8, 0xFF, 0xE0]

/-- Source: `ALLOWED_MIME_TYPES`. -/
def ALLOWED_MIME_TYPES : List String :=
  ["image/jpeg", "image/jpg", "image/png", "application/pdf"]

/-- Source: `MAX_FILE_SIZE = 10 * 1024 * 1024`. -/
def MAX_FILE_SIZE : Nat := 10 * 1024 * 1024

/-- Source: `MAX_FILENAME_LENGTH = 255`. -/
def MAX_FILENAME_LENGTH : Nat := 255

/-- Source: `checkSignature(bytes, signature)` — false when fewer bytes than
the signature, otherwise an indexwise comparison over the signature. -/
def checkSignature (bytes : List Nat) (signature : List Nat) : Bool :=
  if bytes.length < signature.length then false
  else (signature.zip bytes).all (fun p => p.2 == p.1)

/-- Source: `validateMagicNumber` — reads the first 16 bytes and dispatches on
the declared MIME type. -/
def validateMagicNumber (file : JFile) : Bool :=
  let bytes := file.content.take 16
  let isJpeg := checkSignature bytes sigJpeg || checkSignature bytes sigJpegExif ||
    checkSignature bytes sigJpegJfif
  let isPng := checkSignature bytes sigPng
  let isPdf := checkSignature bytes sigPdf
  if file.mime == "image/jpeg" || file.mime == "image/jpg" then isJpeg
  else if file.mime == "image/png" then isPng
  else if file.mime == "application/pdf" then isPdf
  else false

/-- JavaScript whitespace characters matched by the `\s` class (the common
ones: space, tab, line feed, carriage return, vertical tab, form feed). -/
def isJsWhitespace (c : Char) : Bool :=
  c == ' ' || c == '\t' || c == '\n' || c == '\r' || c.toNat == 0x0b || c.toNat == 0x0c

/-- Characters removed by the dangerous-character class of `sanitizeFilename`
(angle brackets, colon, double quote, slashes, pipe, question mark, asterisk,
and control characters below 0x20). -/
def isDangerousChar (c : Char) : Bool :=
  c == '<' || c == '>' || c == ':' || c == '"' || c == '/' || c == '\\' ||
  c == '|' || c == '?' || c == '*' || c.toNat < 0x20

/-- Replacement of every maximal whitespace run by one underscore, as the
global whitespace-run regex replacement performs. -/
def collapseWs : List Char → List Char
  | [] => []
  | [c] => if isJsWhitespace c then ['_'] else [c]
  | c1 :: c2 :: rest =>
    if isJsWhitespace c1 then
      if isJsWhitespace c2 then collapseWs (c2 :: rest)
      else '_' :: collapseWs (c2 :: rest)
    else c1 :: collapseWs (c2 :: rest)

/-- JavaScript `trim`: strip whitespace from both ends. -/
def trimJs (l : List Char) : List Char :=
  ((l.dropWhile isJsWhitespace).reverse.dropWhile isJsWhitespace).reverse

/-- Source: `sanitizeFilename` — reject empty or overlong names, strip
dangerous characters, leading and trailing dot runs, collapse whitespace runs
to underscores, truncate, trim, and reject an empty or single-dot result. -/
def sanitizeFilename (filename : String) : String :=
  if filename == "" || filename.length > MAX_FILENAME_LENGTH then ""
  else
    let s1 := filename.data.filter (fun c => !(isDangerousChar c))
    let s2 := s1.dropWhile (fun c => c == '.')
    let s3 := (s2.reverse.dropWhile (fun c => c == '.')).reverse
    let s4 := collapseWs s3
    let s5 := s4.take MAX_FILENAME_LENGTH
    let s6 := trimJs s5
    let sanitized := String.mk s6
    if sanitized == "" || sanitized == "." then "" else sanitized

/-- Containment of a contiguous byte pattern, as the substring test of
JavaScript `includes` performs on ASCII-transparent text. -/
def hasByteSeq (pat : List Nat) : List Nat → Bool
  | [] => pat.isEmpty
  | b :: rest => pat.isPrefixOf (b :: rest) || hasByteSeq pat rest

/-- Source: `validatePdfContent` — the first kilobyte, decoded as text, must
contain the `%PDF-` marker and a line feed (ASCII-transparent byte check). -/
def validatePdfContent (file : JFile) : Bool :=
  let chunk := file.content.take 1024
  hasByteSeq [0x25, 0x50, 0x44, 0x46, 0x2D] chunk && chunk.contains 0x0A

/-- Source: `validateFileContent` dispatches to the browser image decode for
image types and to the PDF text check for PDFs; the browser's image decoding
is an external effect, passed in as the `imageLoads` oracle. -/
def validateFileContent (imageLoads : JFile → Bool) (file : JFile) : Bool :=
  if file.mime.startsWith "image/" then imageLoads file
  else if file.mime == "application/pdf" then validatePdfContent file
  else false

/-- Result record of `validateFile` (the sanitized-file payload of the success
case is not needed by any claim and is omitted). -/
structure FileValidationResult where
  isValid : Bool
  error : Option String
deriving DecidableEq

/-- Source: `validateFile` — the ordered chain of checks: size cap, emptiness,
filename sanitization, MIME allow-list, magic-number match, content check. -/
def validateFile (imageLoads : JFile → Bool) (file : JFile) : FileValidationResult :=
  if file.size > MAX_FILE_SIZE then
    { isValid := false, error := some "File size exceeds 10MB limit" }
  else if file.size == 0 then
    { isValid := false, error := some "File is empty" }
  else if sanitizeFilename file.name == "" then
    { isValid := false, error := some "Invalid filename" }
  else if !(ALLOWED_MIME_TYPES.contains file.mime) then
    { isValid := false,
      error := some "Invalid file type. Only JPEG, PNG, and PDF files are allowed" }
  else if !(validateMagicNumber file) then
    { isValid := false,
      error := some "File content does not match file extension. Possible security risk detected." }
  else if !(validateFileContent imageLoads file) then
    { isValid := false, error := some "File content validation failed" }
  else
    { isValid := true, error := none }

/-- C10: every listed input-validation defect — size above the 10MB cap, empty
file, MIME type outside the allow-list, or content whose magic-number
signature does not match the declared type — makes `validateFile` return
invalid with an error message, for every behaviour of the browser image
decoder, so the upload flow rejects the file before any canvas mutation. -/
theorem validateFile_rejects_bad_input (imageLoads : JFile → Bool) (file : JFile)
    (hbad : file.size > MAX_FILE_SIZE ∨ file.size = 0 ∨
      ALLOWED_MIME_TYPES.contains file.mime = false ∨
      validateMagicNumber file = false) :
    (validateFile imageLoads file).isValid = false ∧
    (validateFile imageLoads file).error.isSome = true := by
  unfold validateFile
  split_ifs with h1 h2 h3 h4 h5 h6
  case _ => exact ⟨rfl, rfl⟩
  case _ => exact ⟨rfl, rfl⟩
  case _ => exact ⟨rfl, rfl⟩
  case _ => exact ⟨rfl, rfl⟩
  case _ => exact ⟨rfl, rfl⟩
  case _ => exact ⟨rfl, rfl⟩
  case _ =>
    exfalso
    rcases hbad with hb | hb | hb | hb
    · exact h1 hb
    · exact h2 (by simp [hb])
    · exact absurd h4 (by simpa using hb)
    · simp [hb] at h5

/-- Witness for C10: an empty PNG file is rejected whatever the image decoder
would say. -/
theorem validateFile_rejects_bad_input_witness :
    ((0 : Nat) > MAX_FILE_SIZE ∨ (0 : Nat) = 0 ∨
      ALLOWED_MIME_TYPES.contains "image/png" = false ∨
      validateMagicNumber (JFile.mk "plan.png" 0 "image/png" []) = false) ∧
    (validateFile (fun _ => true) (JFile.mk "plan.png" 0 "image/png" [])).isValid = false :=
  ⟨Or.inr (Or.inl rfl),
   (validateFile_rejects_bad_input (fun _ => true) (JFile.mk "plan.png" 0 "image/png" [])
      (Or.inr (Or.inl rfl))).1⟩

end FileValidator

namespace Zorder

/-- Semantic tag of a canvas object for the layering model: grid lines, walls
and dimension annotations carry no room/furniture flag; room groups carry
`isRoom` and a `room_` identifier; furniture groups carry `isFurniture`;
dimension labels are non-interactive text. -/
inductive Kind where
  | gridline | wallLine | room | furniture | labelText
deriving DecidableEq

/-- Canvas object: `oid` stands for JavaScript reference identity (objects are
only ever compared by reference), `kind` for the ad hoc tag properties. -/
structure Obj where
  oid : Nat
  kind : Kind
deriving DecidableEq

/-- The drawing surface's object list, ordered back-to-front: a higher list
index is a higher draw-order index. -/
abbrev Canvas := List Obj

/-- Decides the `isFurniture` tag. -/
def isFurn (o : Obj) : Bool := o.kind == Kind.furniture

/-- Decides the `isRoom` tag (equivalently, an `id` starting with `room_`:
only room groups carry such an identifier). -/
def isRoomObj (o : Obj) : Bool := o.kind == Kind.room

/-- fabric `bringObjectToFront`: remove the object from the draw list and push
it at the highest index. -/
def bringToFront (t : Obj) (l : Canvas) : Canvas := l.erase t ++ [t]

/-- One step of a furniture re-raise loop: raise the object when it satisfies
the loop's guard. -/
def stepRaise (p : Obj → Bool) (acc : Canvas) (o : Obj) : Canvas :=
  if p o then bringToFront o acc else acc

/-- Source: `fabricCanvas.getObjects().forEach(obj => ...bringObjectToFront...)`
— the iteration runs over the snapshot `getObjects()` returned while each
raise mutates the live list, so the fold starts from the same list it
iterates. -/
def raiseAll (p : Obj → Bool) (l : Canvas) : Canvas := l.foldl (stepRaise p) l

/-- fabric `sendObjectBackwards`: swap the object with its immediate lower
neighbour; no change when it already sits at the lowest index. -/
def sendBackwards (t : Obj) : Canvas → Canvas
  | [] => []
  | [a] => [a]
  | a :: b :: rest => if b == t then b :: a :: rest else a :: sendBackwards t (b :: rest)

/-- fabric `sendObjectToBack`: move the object to the lowest index. -/
def sendToBackAll (t : Obj) (l : Canvas) : Canvas := t :: l.erase t

/-- The z-order invariant, decided over the back-to-front list: no room object
occurs above any furniture object, i.e. every furniture object has a higher
draw-order index than every room object. -/
def noRoomAboveFurniture : Canvas → Bool
  | [] => true
  | o :: rest =>
    (if isFurn o then rest.all (fun x => !(isRoomObj x)) else true) &&
    noRoomAboveFurniture rest

/-- Scene state: the draw list plus the allocator standing for JavaScript
object allocation (fresh identities for new groups and labels). -/
structure CState where
  objs : Canvas
  nextId : Nat
deriving DecidableEq

/-- Lookup of an operation target by reference. -/
def findObj (s : CState) (i : Nat) : Option Obj := s.objs.find? (fun o => o.oid == i)

/-- The operations of the claim: room creation (finalization of a draw
gesture; `freshLabels` records whether the dimension-label pair is created at
finalization or already existed from the drag), furniture drop, selection, and
the two context-menu actions. -/
inductive Op where
  | createRoom (freshLabels : Bool)
  | dropFurniture
  | selectObj (i : Nat)
  | ctxBringToFront (i : Nat)
  | ctxSendToBack (i : Nat)
deriving DecidableEq

/-- Transition function, one branch per source handler.
Room creation (`mouse:up`, room branch): the finalized group is added at the
top, then every object whose `isFurniture` flag is set is brought to front in
draw-list order; `setActiveObject(roomGroup)` then fires `selection:created`
(the removed transient rect had cleared the selection), whose handler sees the
`room_` identifier and brings the new group to the very front — above the
furniture just re-raised; finally the dimension-label upsert may append the
label pair.
Furniture drop (`createFurnitureObjectOnCanvas`): the group is added and
immediately brought to front.
Selection (`selection:created`): an object whose identifier starts with
`room_` is brought to front; other targets cause no reordering.
Context-menu bring-to-front (`handleBringToFront`): the target is brought to
front; when the target is furniture, every other furniture object is then
re-raised in draw-list order and the target raised again on top.
Context-menu send-to-back (`handleSendToBack`): for a furniture target, the
target is sent backwards one step when it is not the lowest furniture, and all
furniture is then re-raised; any other target is sent to the very back. -/
def applyOp (s : CState) : Op → CState
  | .createRoom freshLabels =>
    let roomGroup : Obj := ⟨s.nextId, Kind.room⟩
    let afterRaise := raiseAll isFurn (s.objs ++ [roomGroup])
    let afterSelect := bringToFront roomGroup afterRaise
    if freshLabels then
      ⟨afterSelect ++ [(⟨s.nextId + 1, Kind.labelText⟩ : Obj), (⟨s.nextId + 2, Kind.labelText⟩ : Obj)],
       s.nextId + 3⟩
    else
      ⟨afterSelect, s.nextId + 1⟩
  | .dropFurniture =>
    let group : Obj := ⟨s.nextId, Kind.furniture⟩
    ⟨bringToFront group (s.objs ++ [group]), s.nextId + 1⟩
  | .selectObj i =>
    match findObj s i with
    | some o => if o.kind == Kind.room then ⟨bringToFront o s.objs, s.nextId⟩ else s
    | none => s
  | .ctxBringToFront i =>
    match findObj s i with
    | some target =>
      if target.kind == Kind.furniture then
        let s1 := bringToFront target s.objs
        let s2 := s1.foldl (stepRaise (fun x => isFurn x && !(x == target))) s1
        ⟨bringToFront target s2, s.nextId⟩
      else
        ⟨bringToFront target s.objs, s.nextId⟩
    | none => s
  | .ctxSendToBack i =>
    match findObj s i with
    | some target =>
      if target.kind == Kind.furniture then
        let furnitureObjects := s.objs.filter isFurn
        let s1 := if furnitureObjects.indexOf target > 0
          then sendBackwards target s.objs else s.objs
        ⟨raiseAll isFurn s1, s.nextId⟩
      else
        ⟨sendToBackAll target s.objs, s.nextId⟩
    | none => s

/-- Decides that the target of a selection or context-menu operation, when it
exists, is not a room group. -/
def targetNotRoom (s : CState) (i : Nat) : Bool :=
  match findObj s i with
  | some o => !(o.kind == Kind.room)
  | none => true

/-- Reachability by the claim's operations from a fresh canvas holding only
grid lines, under the amended side conditions: selection and bring-to-front
are restricted to non-room targets, and a room is only created while no
furniture is on the canvas — the selection-driven raise at the end of room
finalization puts the new room above all furniture, so room creation with
furniture present violates the invariant. -/
inductive Reach : CState → Prop where
  | init (n : Nat) : Reach ⟨(List.range n).map (fun i => ⟨i, Kind.gridline⟩), n⟩
  | createRoom {s : CState} (freshLabels : Bool) (h : Reach s)
      (hnf : s.objs.all (fun o => !(isFurn o)) = true) :
      Reach (applyOp s (.createRoom freshLabels))
  | dropFurniture {s : CState} (h : Reach s) : Reach (applyOp s .dropFurniture)
  | selectObj {s : CState} (i : Nat) (h : Reach s) (hok : targetNotRoom s i = true) :
      Reach (applyOp s (.selectObj i))
  | ctxBringToFront {s : CState} (i : Nat) (h : Reach s) (hok : targetNotRoom s i = true) :
      Reach (applyOp s (.ctxBringToFront i))
  | ctxSendToBack {s : CState} (i : Nat) (h : Reach s) : Reach (applyOp s (.ctxSendToBack i))

end Zorder

namespace Zorder

/-- C1 counterexample: starting from an empty canvas, create a room, drop a
furniture item (the furniture is now above the room), then invoke the
context-menu bring-to-front on the room — the room ends above the furniture
and no re-raise happens, so the claimed invariant is violated by an operation
from the claim's own list. -/
theorem bring_room_to_front_violates_zorder :
    noRoomAboveFurniture
      (applyOp (applyOp (applyOp ⟨[], 0⟩ (Op.createRoom false)) Op.dropFurniture)
        (Op.ctxBringToFront 0)).objs = false := by
  decide

end Zorder

namespace Zorder

/-- Unfolding equation of the invariant on a cons cell. -/
theorem nraf_cons (o : Obj) (l : Canvas) :
    noRoomAboveFurniture (o :: l) =
      ((if isFurn o then l.all (fun x => !(isRoomObj x)) else true) &&
        noRoomAboveFurniture l) := rfl

/-- A list without rooms satisfies the invariant. -/
theorem nraf_of_no_room (l : Canvas) (h : ∀ x ∈ l, isRoomObj x = false) :
    noRoomAboveFurniture l = true := by
  induction l with
  | nil => rfl
  | cons a t ih =>
    rw [nraf_cons, Bool.and_eq_true]
    refine ⟨?_, ih (fun x hx => h x (List.mem_cons_of_mem a hx))⟩
    cases hf : isFurn a
    · simp [hf]
    · simp only [hf, if_true]
      rw [List.all_eq_true]
      intro x hx
      simp [h x (List.mem_cons_of_mem a hx)]

/-- A list without furniture satisfies the invariant. -/
theorem nraf_of_no_furn (l : Canvas) (h : ∀ x ∈ l, isFurn x = false) :
    noRoomAboveFurniture l = true := by
  induction l with
  | nil => rfl
  | cons a t ih =>
    rw [nraf_cons, Bool.and_eq_true]
    exact ⟨by simp [h a (List.mem_cons_self a t)],
      ih (fun x hx => h x (List.mem_cons_of_mem a hx))⟩

/-- A furniture-free prefix followed by a room-free suffix satisfies the
invariant. -/
theorem nraf_append (B C : Canvas) (hB : ∀ x ∈ B, isFurn x = false)
    (hC : ∀ x ∈ C, isRoomObj x = false) :
    noRoomAboveFurniture (B ++ C) = true := by
  induction B with
  | nil => simpa using nraf_of_no_room C hC
  | cons a t ih =>
    rw [List.cons_append, nraf_cons, Bool.and_eq_true]
    exact ⟨by simp [hB a (List.mem_cons_self a t)],
      ih (fun x hx => hB x (List.mem_cons_of_mem a hx))⟩

/-- The invariant restricts to sublists (removing objects cannot put a room
above furniture). -/
theorem nraf_sublist {t s : Canvas} (hsub : List.Sublist t s)
    (h : noRoomAboveFurniture s = true) : noRoomAboveFurniture t = true := by
  induction hsub with
  | slnil => rfl
  | cons a hsub ih =>
    rw [nraf_cons, Bool.and_eq_true] at h
    exact ih h.2
  | cons₂ a hsub ih =>
    rw [nraf_cons, Bool.and_eq_true] at h ⊢
    obtain ⟨h1, h2⟩ := h
    refine ⟨?_, ih h2⟩
    cases hf : isFurn a
    · simp [hf]
    · simp only [hf, if_true] at h1 ⊢
      rw [List.all_eq_true] at h1 ⊢
      exact fun x hx => h1 x (hsub.subset hx)

/-- Appending a non-room object on top preserves the invariant. -/
theorem nraf_append_single (l : Canvas) (x : Obj) (hx : isRoomObj x = false)
    (h : noRoomAboveFurniture l = true) : noRoomAboveFurniture (l ++ [x]) = true := by
  induction l with
  | nil =>
    cases hf : isFurn x <;>
      simp [nraf_cons, noRoomAboveFurniture, hf]
  | cons a t ih =>
    rw [nraf_cons, Bool.and_eq_true] at h
    obtain ⟨h1, h2⟩ := h
    rw [List.cons_append, nraf_cons, Bool.and_eq_true]
    refine ⟨?_, ih h2⟩
    cases hf : isFurn a
    · simp [hf]
    · simp only [hf, if_true] at h1 ⊢
      rw [List.all_append, Bool.and_eq_true]
      exact ⟨h1, by simp [hx]⟩

/-- Prepending a non-furniture object at the back preserves the invariant. -/
theorem nraf_cons_of_not_furn (x : Obj) (l : Canvas) (hx : isFurn x = false)
    (h : noRoomAboveFurniture l = true) : noRoomAboveFurniture (x :: l) = true := by
  rw [nraf_cons]
  simp [hx, h]

/-- `sendObjectBackwards` permutes the draw list. -/
theorem sendBackwards_perm (t : Obj) : ∀ l : Canvas, List.Perm (sendBackwards t l) l
  | [] => by simp [sendBackwards]
  | [a] => by simp [sendBackwards]
  | a :: b :: rest => by
    unfold sendBackwards
    by_cases h : (b == t) = true
    · rw [if_pos h]
      exact List.Perm.swap a b rest
    · rw [if_neg h]
      exact (sendBackwards_perm t (b :: rest)).cons a

/-- `bringObjectToFront` permutes the draw list when the target is present. -/
theorem bringToFront_perm (t : Obj) (l : Canvas) (h : t ∈ l) :
    List.Perm (bringToFront t l) l :=
  (List.perm_append_singleton t (l.erase t)).trans (List.perm_cons_erase h).symm


/-- Main lemma about the re-raise loops: folding a raise step over a snapshot
`t` from a start list split as a room-free-on-top `B ++ C`, where every
raisable object of `B` still occurs in the remaining snapshot, yields a list
splitting as `B' ++ C'` with no raisable object in `B'` and no room in `C'`,
and permutes the start list. -/
theorem raise_fold_split (p : Obj → Bool) (hp : ∀ x, p x = true → isRoomObj x = false) :
    ∀ t A B C : Canvas, A = B ++ C →
      (∀ x ∈ C, isRoomObj x = false) →
      (∀ x ∈ B, p x = true → x ∈ t) →
      (∀ x ∈ t, x ∈ A) →
      A.Nodup →
      ∃ B' C', List.foldl (stepRaise p) A t = B' ++ C' ∧
        (∀ x ∈ C', isRoomObj x = false) ∧
        (∀ x ∈ B', p x = false) ∧
        List.Perm (B' ++ C') A := by
  intro t
  induction t with
  | nil =>
    intro A B C hA hC hB ht hN
    subst hA
    refine ⟨B, C, rfl, hC, ?_, List.Perm.refl _⟩
    intro x hx
    cases hpx : p x with
    | false => rfl
    | true => exact absurd (hB x hx hpx) (List.not_mem_nil x)
  | cons h t ih =>
    intro A B C hA hC hB ht hN
    subst hA
    rw [List.foldl_cons]
    by_cases hph : p h = true
    · have hstep : stepRaise p (B ++ C) h = (B ++ C).erase h ++ [h] := by
        unfold stepRaise bringToFront
        rw [if_pos hph]
      rw [hstep]
      have hmemh : h ∈ B ++ C := ht h (List.mem_cons_self h t)
      by_cases hhB : h ∈ B
      · have heq : (B ++ C).erase h ++ [h] = B.erase h ++ (C ++ [h]) := by
          rw [List.erase_append_left _ hhB, List.append_assoc]
        have hNB : B.Nodup := (List.nodup_append.mp hN).1
        have hperm0 : List.Perm (B.erase h ++ (C ++ [h])) (B ++ C) := by
          have p1 : List.Perm (B.erase h ++ (C ++ [h])) (h :: (B.erase h ++ C)) := by
            rw [← List.append_assoc]
            exact List.perm_append_singleton h (B.erase h ++ C)
          have p2 : List.Perm (B ++ C) (h :: (B.erase h ++ C)) :=
            (List.perm_cons_erase hhB).append_right C
          exact p1.trans p2.symm
        have hC2 : ∀ x ∈ C ++ [h], isRoomObj x = false := by
          intro x hx
          rcases List.mem_append.mp hx with hx1 | hx2
          · exact hC x hx1
          · rw [List.mem_singleton] at hx2
            subst hx2
            exact hp _ hph
        have hB2 : ∀ x ∈ B.erase h, p x = true → x ∈ t := by
          intro x hx hpx
          have hxB : x ∈ B := List.mem_of_mem_erase hx
          rcases List.mem_cons.mp (hB x hxB hpx) with hxh | hxt
          · subst hxh
            exact absurd hx hNB.not_mem_erase
          · exact hxt
        have ht2 : ∀ x ∈ t, x ∈ B.erase h ++ (C ++ [h]) := by
          intro x hx
          exact hperm0.mem_iff.mpr (ht x (List.mem_cons_of_mem h hx))
        have hN2 : (B.erase h ++ (C ++ [h])).Nodup := hperm0.nodup_iff.mpr hN
        obtain ⟨B', C', heq', hC', hp', hperm⟩ :=
          ih (B.erase h ++ (C ++ [h])) (B.erase h) (C ++ [h]) rfl hC2 hB2 ht2 hN2
        rw [heq]
        exact ⟨B', C', heq', hC', hp', hperm.trans hperm0⟩
      · have hhC : h ∈ C := by
          rcases List.mem_append.mp hmemh with h1 | h2
          · exact absurd h1 hhB
          · exact h2
        have heq : (B ++ C).erase h ++ [h] = B ++ (C.erase h ++ [h]) := by
          rw [List.erase_append_right _ hhB, List.append_assoc]
        have hperm0 : List.Perm (B ++ (C.erase h ++ [h])) (B ++ C) := by
          have pinner : List.Perm (C.erase h ++ [h]) C :=
            (List.perm_append_singleton h (C.erase h)).trans (List.perm_cons_erase hhC).symm
          exact pinner.append_left B
        have hC2 : ∀ x ∈ C.erase h ++ [h], isRoomObj x = false := by
          intro x hx
          rcases List.mem_append.mp hx with hx1 | hx2
          · exact hC x (List.mem_of_mem_erase hx1)
          · rw [List.mem_singleton] at hx2
            subst hx2
            exact hp _ hph
        have hB2 : ∀ x ∈ B, p x = true → x ∈ t := by
          intro x hx hpx
          rcases List.mem_cons.mp (hB x hx hpx) with hxh | hxt
          · subst hxh
            exact absurd hx hhB
          · exact hxt
        have ht2 : ∀ x ∈ t, x ∈ B ++ (C.erase h ++ [h]) := by
          intro x hx
          exact hperm0.mem_iff.mpr (ht x (List.mem_cons_of_mem h hx))
        have hN2 : (B ++ (C.erase h ++ [h])).Nodup := hperm0.nodup_iff.mpr hN
        obtain ⟨B', C', heq', hC', hp', hperm⟩ :=
          ih (B ++ (C.erase h ++ [h])) B (C.erase h ++ [h]) rfl hC2 hB2 ht2 hN2
        rw [heq]
        exact ⟨B', C', heq', hC', hp', hperm.trans hperm0⟩
    · have hph' : p h = false := by
        cases hpv : p h
        · rfl
        · exact absurd hpv hph
      have hstep : stepRaise p (B ++ C) h = B ++ C := by
        unfold stepRaise
        rw [if_neg hph]
      rw [hstep]
      refine ih (B ++ C) B C rfl hC ?_ (fun x hx => ht x (List.mem_cons_of_mem h hx)) hN
      intro x hx hpx
      rcases List.mem_cons.mp (hB x hx hpx) with hxh | hxt
      · subst hxh
        exact absurd hpx hph
      · exact hxt

end Zorder

namespace Zorder

/-- A furniture-tagged object is not room-tagged. -/
theorem furn_not_room (x : Obj) (hx : isFurn x = true) : isRoomObj x = false := by
  unfold isRoomObj
  rw [eq_of_beq hx]
  decide

/-- Appending two non-room objects on top preserves the invariant. -/
theorem nraf_append_two (l : Canvas) (x y : Obj) (hx : isRoomObj x = false)
    (hy : isRoomObj y = false) (h : noRoomAboveFurniture l = true) :
    noRoomAboveFurniture (l ++ [x, y]) = true := by
  have h2 := nraf_append_single (l ++ [x]) y hy (nraf_append_single l x hx h)
  rw [List.append_assoc] at h2
  exact h2

/-- A re-raise loop over a snapshot containing no raisable object leaves the
draw list unchanged. -/
theorem foldl_stepRaise_of_no_p (p : Obj → Bool) :
    ∀ t acc : Canvas, (∀ x ∈ t, p x = false) →
      List.foldl (stepRaise p) acc t = acc := by
  intro t
  induction t with
  | nil =>
    intro acc _
    rfl
  | cons h t ih =>
    intro acc hall
    rw [List.foldl_cons]
    have hph : ¬ p h = true := by simp [hall h (List.mem_cons_self h t)]
    have hstep : stepRaise p acc h = acc := by
      unfold stepRaise
      rw [if_neg hph]
    rw [hstep]
    exact ih acc (fun x hx => hall x (List.mem_cons_of_mem h hx))

/-- The furniture re-raise loop restores the invariant on any duplicate-free
draw list and permutes it. -/
theorem raiseAll_furniture_sound (l : Canvas) (hN : l.Nodup) :
    noRoomAboveFurniture (raiseAll isFurn l) = true ∧ List.Perm (raiseAll isFurn l) l := by
  obtain ⟨B', C', heq, hC', hp', hperm⟩ :=
    raise_fold_split isFurn (fun x hx => furn_not_room x hx) l l l []
      (List.append_nil l).symm
      (fun x hx => absurd hx (List.not_mem_nil x))
      (fun x hx _ => hx)
      (fun x hx => hx)
      hN
  unfold raiseAll
  rw [heq]
  exact ⟨nraf_append B' C' hp' hC', hperm⟩

/-- The context-menu bring-to-front on a furniture target — raise the target,
re-raise every other furniture object over the snapshot, raise the target
again — restores the invariant and permutes the draw list. -/
theorem ctx_bring_furniture_sound (t0 : Obj) (l : Canvas) (hf : isFurn t0 = true)
    (hN : l.Nodup) (hmem : t0 ∈ l) :
    noRoomAboveFurniture
      (bringToFront t0
        (List.foldl (stepRaise (fun x => isFurn x && !(x == t0)))
          (bringToFront t0 l) (bringToFront t0 l))) = true ∧
    List.Perm
      (bringToFront t0
        (List.foldl (stepRaise (fun x => isFurn x && !(x == t0)))
          (bringToFront t0 l) (bringToFront t0 l))) l := by
  have hp : ∀ x, (isFurn x && !(x == t0)) = true → isRoomObj x = false := by
    intro x hx
    rw [Bool.and_eq_true] at hx
    exact furn_not_room x hx.1
  have hperm1 : List.Perm (bringToFront t0 l) l := bringToFront_perm t0 l hmem
  have hN1 : (bringToFront t0 l).Nodup := hperm1.nodup_iff.mpr hN
  obtain ⟨B', C', heq, hC', hp', hperm⟩ :=
    raise_fold_split (fun x => isFurn x && !(x == t0)) hp
      (bringToFront t0 l) (bringToFront t0 l) (bringToFront t0 l) []
      (List.append_nil _).symm
      (fun x hx => absurd hx (List.not_mem_nil x))
      (fun x hx _ => hx)
      (fun x hx => hx)
      hN1
  rw [heq]
  have hmem2 : t0 ∈ B' ++ C' := hperm.mem_iff.mpr (hperm1.mem_iff.mpr hmem)
  have hN2 : (B' ++ C').Nodup := hperm.nodup_iff.mpr hN1
  have hNB' : B'.Nodup := (List.nodup_append.mp hN2).1
  have hperm2 : List.Perm (bringToFront t0 (B' ++ C')) l :=
    (bringToFront_perm t0 (B' ++ C') hmem2).trans (hperm.trans hperm1)
  refine ⟨?_, hperm2⟩
  unfold bringToFront
  by_cases ht0B : t0 ∈ B'
  · have heq2 : (B' ++ C').erase t0 ++ [t0] = B'.erase t0 ++ (C' ++ [t0]) := by
      rw [List.erase_append_left _ ht0B, List.append_assoc]
    rw [heq2]
    apply nraf_append
    · intro x hx
      rcases Bool.and_eq_false_iff.mp (hp' x (List.mem_of_mem_erase hx)) with h1 | h2
      · exact h1
      · have hxt : x = t0 := eq_of_beq (by simpa using h2)
        subst hxt
        exact absurd hx hNB'.not_mem_erase
    · intro x hx
      rcases List.mem_append.mp hx with hx1 | hx2
      · exact hC' x hx1
      · rw [List.mem_singleton] at hx2
        subst hx2
        exact furn_not_room _ hf
  · have ht0C : t0 ∈ C' := by
      rcases List.mem_append.mp hmem2 with h1 | h2
      · exact absurd h1 ht0B
      · exact h2
    have heq2 : (B' ++ C').erase t0 ++ [t0] = B' ++ (C'.erase t0 ++ [t0]) := by
      rw [List.erase_append_right _ ht0B, List.append_assoc]
    rw [heq2]
    apply nraf_append
    · intro x hx
      rcases Bool.and_eq_false_iff.mp (hp' x hx) with h1 | h2
      · exact h1
      · have hxt : x = t0 := eq_of_beq (by simpa using h2)
        subst hxt
        exact absurd hx ht0B
    · intro x hx
      rcases List.mem_append.mp hx with hx1 | hx2
      · exact hC' x (List.mem_of_mem_erase hx1)
      · rw [List.mem_singleton] at hx2
        subst hx2
        exact furn_not_room _ hf

end Zorder

namespace Zorder

/-- Well-formedness of the allocator: every object on the canvas has an
identity allocated before `nextId`, and identities are pairwise distinct. -/
abbrev WFc (s : CState) : Prop := (∀ o ∈ s.objs, o.oid < s.nextId) ∧ s.objs.Nodup

/-- Unfolding equation of `applyOp` for selection. -/
theorem applyOp_selectObj (s : CState) (i : Nat) :
    applyOp s (.selectObj i) =
      match findObj s i with
      | some o => if o.kind == Kind.room then ⟨bringToFront o s.objs, s.nextId⟩ else s
      | none => s := rfl

/-- Unfolding equation of `applyOp` for context-menu bring-to-front. -/
theorem applyOp_ctxBringToFront (s : CState) (i : Nat) :
    applyOp s (.ctxBringToFront i) =
      match findObj s i with
      | some target =>
        if target.kind == Kind.furniture then
          ⟨bringToFront target
            (List.foldl (stepRaise (fun x => isFurn x && !(x == target)))
              (bringToFront target s.objs) (bringToFront target s.objs)), s.nextId⟩
        else
          ⟨bringToFront target s.objs, s.nextId⟩
      | none => s := rfl

/-- Unfolding equation of `applyOp` for context-menu send-to-back. -/
theorem applyOp_ctxSendToBack (s : CState) (i : Nat) :
    applyOp s (.ctxSendToBack i) =
      match findObj s i with
      | some target =>
        if target.kind == Kind.furniture then
          ⟨raiseAll isFurn
            (if (s.objs.filter isFurn).indexOf target > 0
              then sendBackwards target s.objs else s.objs), s.nextId⟩
        else
          ⟨sendToBackAll target s.objs, s.nextId⟩
      | none => s := rfl

/-- Every state reachable by the amended operation set satisfies the z-order
invariant and is well-formed. -/
theorem reach_inv : ∀ s : CState, Reach s → noRoomAboveFurniture s.objs = true ∧ WFc s := by
  intro s h
  induction h with
  | init n =>
    refine ⟨?_, ?_, ?_⟩
    · apply nraf_of_no_furn
      intro x hx
      obtain ⟨i, _, rfl⟩ := List.mem_map.mp hx
      rfl
    · intro o ho
      obtain ⟨i, hi, rfl⟩ := List.mem_map.mp ho
      exact List.mem_range.mp hi
    · exact List.Nodup.map (fun a b hab => congrArg Obj.oid hab) (List.nodup_range n)
  | @createRoom s fl hr hnf ih =>
    have hnofurn : ∀ x ∈ s.objs, isFurn x = false := by
      intro x hx
      have := (List.all_eq_true.mp hnf) x hx
      simpa using this
    have hfresh : (⟨s.nextId, Kind.room⟩ : Obj) ∉ s.objs := by
      intro hc
      exact absurd (ih.2.1 _ hc) (lt_irrefl s.nextId)
    have hnf2 : ∀ x ∈ s.objs ++ [(⟨s.nextId, Kind.room⟩ : Obj)], isFurn x = false := by
      intro x hx
      rcases List.mem_append.mp hx with h1 | h2
      · exact hnofurn x h1
      · rw [List.mem_singleton] at h2
        subst h2
        rfl
    have hraise : raiseAll isFurn (s.objs ++ [(⟨s.nextId, Kind.room⟩ : Obj)]) =
        s.objs ++ [(⟨s.nextId, Kind.room⟩ : Obj)] := by
      unfold raiseAll
      exact foldl_stepRaise_of_no_p isFurn _ _ hnf2
    have hbring : bringToFront (⟨s.nextId, Kind.room⟩ : Obj)
        (s.objs ++ [(⟨s.nextId, Kind.room⟩ : Obj)]) =
        s.objs ++ [(⟨s.nextId, Kind.room⟩ : Obj)] := by
      unfold bringToFront
      rw [List.erase_append_right _ hfresh, List.erase_cons_head, List.append_nil]
    have hcanvas : bringToFront (⟨s.nextId, Kind.room⟩ : Obj)
        (raiseAll isFurn (s.objs ++ [(⟨s.nextId, Kind.room⟩ : Obj)])) =
        s.objs ++ [(⟨s.nextId, Kind.room⟩ : Obj)] := by
      rw [hraise, hbring]
    have hND : (s.objs ++ [(⟨s.nextId, Kind.room⟩ : Obj)]).Nodup := by
      rw [List.nodup_append]
      refine ⟨ih.2.2, List.nodup_singleton _, ?_⟩
      intro a ha hb
      rw [List.mem_singleton] at hb
      subst hb
      exact hfresh ha
    have hbound1 : ∀ o ∈ s.objs ++ [(⟨s.nextId, Kind.room⟩ : Obj)], o.oid ≤ s.nextId := by
      intro o ho
      rcases List.mem_append.mp ho with h1 | h2
      · exact le_of_lt (ih.2.1 o h1)
      · rw [List.mem_singleton] at h2
        subst h2
        exact le_refl _
    cases fl with
    | false =>
      refine ⟨?_, ?_, ?_⟩
      · show noRoomAboveFurniture (bringToFront (⟨s.nextId, Kind.room⟩ : Obj)
            (raiseAll isFurn (s.objs ++ [(⟨s.nextId, Kind.room⟩ : Obj)]))) = true
        rw [hcanvas]
        exact nraf_of_no_furn _ hnf2
      · intro o ho
        have ho' : o ∈ bringToFront (⟨s.nextId, Kind.room⟩ : Obj)
            (raiseAll isFurn (s.objs ++ [(⟨s.nextId, Kind.room⟩ : Obj)])) := ho
        rw [hcanvas] at ho'
        show o.oid < s.nextId + 1
        exact Nat.lt_succ_of_le (hbound1 o ho')
      · show (bringToFront (⟨s.nextId, Kind.room⟩ : Obj)
            (raiseAll isFurn (s.objs ++ [(⟨s.nextId, Kind.room⟩ : Obj)]))).Nodup
        rw [hcanvas]
        exact hND
    | true =>
      refine ⟨?_, ?_, ?_⟩
      · show noRoomAboveFurniture (bringToFront (⟨s.nextId, Kind.room⟩ : Obj)
            (raiseAll isFurn (s.objs ++ [(⟨s.nextId, Kind.room⟩ : Obj)])) ++
            [(⟨s.nextId + 1, Kind.labelText⟩ : Obj), (⟨s.nextId + 2, Kind.labelText⟩ : Obj)]) = true
        rw [hcanvas]
        exact nraf_append_two _ _ _ rfl rfl (nraf_of_no_furn _ hnf2)
      · intro o ho
        have ho' : o ∈ bringToFront (⟨s.nextId, Kind.room⟩ : Obj)
            (raiseAll isFurn (s.objs ++ [(⟨s.nextId, Kind.room⟩ : Obj)])) ++
            [(⟨s.nextId + 1, Kind.labelText⟩ : Obj), (⟨s.nextId + 2, Kind.labelText⟩ : Obj)] := ho
        rw [hcanvas] at ho'
        rcases List.mem_append.mp ho' with h1 | h2
        · have := hbound1 o h1
          show o.oid < s.nextId + 3
          omega
        · rcases List.mem_cons.mp h2 with rfl | h3
          · show s.nextId + 1 < s.nextId + 3
            omega
          · rw [List.mem_singleton] at h3
            subst h3
            show s.nextId + 2 < s.nextId + 3
            omega
      · show (bringToFront (⟨s.nextId, Kind.room⟩ : Obj)
            (raiseAll isFurn (s.objs ++ [(⟨s.nextId, Kind.room⟩ : Obj)])) ++
            [(⟨s.nextId + 1, Kind.labelText⟩ : Obj), (⟨s.nextId + 2, Kind.labelText⟩ : Obj)]).Nodup
        rw [hcanvas, List.nodup_append]
        refine ⟨hND, ?_, ?_⟩
        · refine List.nodup_cons.mpr ⟨?_, List.nodup_singleton _⟩
          rw [List.mem_singleton]
          intro hc
          have := congrArg Obj.oid hc
          have h2 : s.nextId + 1 = s.nextId + 2 := this
          omega
        · intro a ha hb
          have hle : a.oid ≤ s.nextId := hbound1 a ha
          rcases List.mem_cons.mp hb with rfl | hb2
          · have h2 : s.nextId + 1 ≤ s.nextId := hle
            omega
          · rw [List.mem_singleton] at hb2
            subst hb2
            have h2 : s.nextId + 2 ≤ s.nextId := hle
            omega
  | @dropFurniture s hr ih =>
    have hfresh : (⟨s.nextId, Kind.furniture⟩ : Obj) ∉ s.objs := by
      intro hc
      exact absurd (ih.2.1 _ hc) (lt_irrefl s.nextId)
    have heq : bringToFront (⟨s.nextId, Kind.furniture⟩ : Obj)
        (s.objs ++ [(⟨s.nextId, Kind.furniture⟩ : Obj)]) =
        s.objs ++ [(⟨s.nextId, Kind.furniture⟩ : Obj)] := by
      unfold bringToFront
      rw [List.erase_append_right _ hfresh, List.erase_cons_head, List.append_nil]
    refine ⟨?_, ?_, ?_⟩
    · show noRoomAboveFurniture (bringToFront (⟨s.nextId, Kind.furniture⟩ : Obj)
        (s.objs ++ [(⟨s.nextId, Kind.furniture⟩ : Obj)])) = true
      rw [heq]
      exact nraf_append_single _ _ rfl ih.1
    · intro o ho
      have ho' : o ∈ bringToFront (⟨s.nextId, Kind.furniture⟩ : Obj)
          (s.objs ++ [(⟨s.nextId, Kind.furniture⟩ : Obj)]) := ho
      rw [heq] at ho'
      rcases List.mem_append.mp ho' with h1 | h2
      · show o.oid < s.nextId + 1
        exact lt_of_lt_of_le (ih.2.1 o h1) (by omega)
      · rw [List.mem_singleton] at h2
        subst h2
        show s.nextId < s.nextId + 1
        omega
    · show (bringToFront (⟨s.nextId, Kind.furniture⟩ : Obj)
        (s.objs ++ [(⟨s.nextId, Kind.furniture⟩ : Obj)])).Nodup
      rw [heq, List.nodup_append]
      refine ⟨ih.2.2, List.nodup_singleton _, ?_⟩
      intro a ha hb
      rw [List.mem_singleton] at hb
      subst hb
      exact hfresh ha
  | @selectObj s i hr hok ih =>
    rw [applyOp_selectObj]
    cases hf : findObj s i with
    | none => exact ih
    | some o =>
      dsimp only
      have hnr : (o.kind == Kind.room) = false := by
        unfold targetNotRoom at hok
        rw [hf] at hok
        simpa using hok
      rw [hnr]
      exact ih
  | @ctxBringToFront s i hr hok ih =>
    rw [applyOp_ctxBringToFront]
    cases hf : findObj s i with
    | none => exact ih
    | some t0 =>
      dsimp only
      have hmem : t0 ∈ s.objs := List.mem_of_find?_eq_some hf
      have hnr : (t0.kind == Kind.room) = false := by
        unfold targetNotRoom at hok
        rw [hf] at hok
        simpa using hok
      by_cases hfk : (t0.kind == Kind.furniture) = true
      · rw [hfk]
        obtain ⟨hn, hp⟩ := ctx_bring_furniture_sound t0 s.objs hfk ih.2.2 hmem
        refine ⟨hn, ?_, hp.nodup_iff.mpr ih.2.2⟩
        intro o ho
        exact ih.2.1 o (hp.mem_iff.mp ho)
      · have hfk' : (t0.kind == Kind.furniture) = false := by
          cases hv : (t0.kind == Kind.furniture)
          · rfl
          · exact absurd hv hfk
        rw [hfk']
        have hperm : List.Perm (bringToFront t0 s.objs) s.objs :=
          bringToFront_perm t0 s.objs hmem
        refine ⟨?_, ?_, hperm.nodup_iff.mpr ih.2.2⟩
        · exact nraf_append_single _ _ hnr (nraf_sublist (List.erase_sublist t0 s.objs) ih.1)
        · intro o ho
          exact ih.2.1 o (hperm.mem_iff.mp ho)
  | @ctxSendToBack s i hr ih =>
    rw [applyOp_ctxSendToBack]
    cases hf : findObj s i with
    | none => exact ih
    | some t0 =>
      dsimp only
      have hmem : t0 ∈ s.objs := List.mem_of_find?_eq_some hf
      by_cases hfk : (t0.kind == Kind.furniture) = true
      · rw [hfk]
        have hperm1 : List.Perm
            (if (s.objs.filter isFurn).indexOf t0 > 0
              then sendBackwards t0 s.objs else s.objs) s.objs := by
          split
          · exact sendBackwards_perm t0 s.objs
          · exact List.Perm.refl _
        have hN1 : (if (s.objs.filter isFurn).indexOf t0 > 0
            then sendBackwards t0 s.objs else s.objs).Nodup :=
          hperm1.nodup_iff.mpr ih.2.2
        obtain ⟨hn, hp2⟩ := raiseAll_furniture_sound _ hN1
        refine ⟨hn, ?_, hp2.nodup_iff.mpr hN1⟩
        intro o ho
        exact ih.2.1 o (hperm1.mem_iff.mp (hp2.mem_iff.mp ho))
      · have hfk' : (t0.kind == Kind.furniture) = false := by
          cases hv : (t0.kind == Kind.furniture)
          · rfl
          · exact absurd hv hfk
        rw [hfk']
        have hperm : List.Perm (sendToBackAll t0 s.objs) s.objs := by
          unfold sendToBackAll
          exact (List.perm_cons_erase hmem).symm
        refine ⟨?_, ?_, hperm.nodup_iff.mpr ih.2.2⟩
        · exact nraf_cons_of_not_furn t0 _ hfk'
            (nraf_sublist (List.erase_sublist t0 s.objs) ih.1)
        · intro o ho
          exact ih.2.1 o (hperm.mem_iff.mp ho)

end Zorder

namespace Zorder

/-- C1 amended: for every scene state reachable from a fresh canvas by
furniture drop, send-to-back, selection/bring-to-front on non-room targets,
and room creation while no furniture is on the canvas, every furniture object
occupies a higher draw-order index than every room object.  The exclusions are
forced by the code: selection and bring-to-front applied to a room raise that
room above all furniture without any re-raise, and room finalization itself
ends with a selection-driven raise of the new room group that undoes the
furniture re-raise just performed, so creating a room with furniture present
also leaves that room on top. -/
theorem furniture_above_rooms_for_amended_ops (s : CState) (h : Reach s) :
    noRoomAboveFurniture s.objs = true :=
  (reach_inv s h).1

/-- Witness for the amended C1 theorem: create a room with its labels, drop a
furniture item, select the furniture, then send it to back — the furniture is
still above the room. -/
theorem furniture_above_rooms_for_amended_ops_witness :
    noRoomAboveFurniture
      (applyOp (applyOp (applyOp (applyOp ⟨[], 0⟩ (Op.createRoom true)) Op.dropFurniture)
        (Op.selectObj 3)) (Op.ctxSendToBack 3)).objs = true :=
  furniture_above_rooms_for_amended_ops _
    (Reach.ctxSendToBack 3
      (Reach.selectObj 3
        (Reach.dropFurniture (Reach.createRoom true (Reach.init 0) (by decide)))
        (by decide)))

end Zorder
